import Mathlib

/-!
Verification of the Smash command interpreter (src/main.cpp).

This file gives a shallow embedding of the interpreter's tokenizer
(function parse, lines 273-332), the dispatch step of the main loop
(lines 135-153), and the copy and run command handlers together with
their helper functions (copy_cmd, run_cmd, createInStream,
validateOutFile, createOutStream, fileExists, clearInput), and proves
theorems about their behavior.

Modelling conventions:
- the standard-input stream is a list of characters; reading consumes
  a prefix of the list;
- the parameter array a (a 2d char array of MAX_PARAMS rows, each of
  MAX_PARAM_LENGTH + 1 chars) is a total function Nat -> Nat -> Char;
  an assignment a[i][j] = c is a pointwise function update, and every
  update performed by the tokenizer is additionally recorded in a
  write log so that in-bounds facts can be stated and proved;
- console output and filesystem actions of the command handlers are
  recorded as explicit event traces, and the filesystem is a map from
  file names (char lists) to file contents.
-/

set_option maxHeartbeats 1000000

/-- MAX_PARAMS from src/main.cpp line 34: the most parameters the
interpreter will read from one line. -/
def MAX_PARAMS : Nat := 4

/-- MAX_PARAM_LENGTH from src/main.cpp line 37: the most characters a
single parameter may hold. -/
def MAX_PARAM_LENGTH : Nat := 100

/-- The null character, used as the C-string terminator. -/
def nullChar : Char := Char.ofNat 0

/-- The parameter array a of main (lines 126-129): MAX_PARAMS rows of
MAX_PARAM_LENGTH + 1 chars each, modelled as a total function from a
row index and a column index to the char stored there. -/
def Buf : Type := Nat → Nat → Char

/-- A single assignment a[i][j] = c, modelled as a pointwise update. -/
def writeBuf (b : Buf) (i j : Nat) (c : Char) : Buf :=
  fun i' j' => if i' = i ∧ j' = j then c else b i' j'

/-- The clearing loop at the start of parse (lines 276-280): every cell
a[i][j] with i < MAX_PARAMS and j < MAX_PARAM_LENGTH is set to 0.  Note
the source loop runs j only up to MAX_PARAM_LENGTH - 1, so column
MAX_PARAM_LENGTH of each row keeps its previous value; the model
preserves that. -/
def clearBuf (b : Buf) : Buf :=
  fun i j => if i < MAX_PARAMS ∧ j < MAX_PARAM_LENGTH then nullChar else b i j

/-- tolower from ctype.h in the default locale, as applied at line 313:
uppercase ASCII letters are shifted to lowercase, all other characters
are unchanged. -/
def ctolower (c : Char) : Char :=
  if 'A' ≤ c ∧ c ≤ 'Z' then Char.ofNat (c.toNat + 32) else c

/-- clearInput (lines 334-338): discard input up to and including the
next newline.  On end of input there is nothing left to discard. -/
def clearInput : List Char → List Char
  | [] => []
  | c :: rest => if c = '\n' then rest else clearInput rest

/-- The outcome of one call to parse: the parameter array, the count
len (-1 on a too-long parameter), the log of every array cell the call
wrote (as row-column pairs, most recent first), and the diagnostic the
error path printed, if any, as the pair of numbers the message at line
319 interpolates: the value of paramCount and MAX_PARAM_LENGTH. -/
structure ParseResult where
  buf : Buf
  len : Int
  writes : List (Nat × Nat)
  err : Option (Nat × Nat)

/-- The read loop of parse (lines 289-331), one constructor case per
character read from the input stream.  State: the characters not yet
read, paramCount, charCount, the array, len, and the write log.  The
source loop reads until a newline; an empty stream (end of input) is
modelled as ending the loop with no final-token handling. -/
def parseLoop : List Char → Nat → Nat → Buf → Int → List (Nat × Nat) →
    ParseResult × List Char
  | [], _, _, buf, len, ws => (⟨buf, len, ws, none⟩, [])
  | curRead :: rest, paramCount, charCount, buf, len, ws =>
    if curRead = '\n' then
      -- the loop exits; lines 328-331 terminate a pending token
      if charCount > 0 then
        (⟨writeBuf buf paramCount charCount nullChar, len + 1,
          (paramCount, charCount) :: ws, none⟩, rest)
      else
        (⟨buf, len, ws, none⟩, rest)
    else if curRead = ' ' then
      if charCount > 0 then
        -- lines 295-307: terminate the current token
        let buf' := writeBuf buf paramCount charCount nullChar
        let ws' := (paramCount, charCount) :: ws
        if paramCount + 1 ≥ MAX_PARAMS then
          (⟨buf', len + 1, ws', none⟩, clearInput rest)
        else
          parseLoop rest (paramCount + 1) 0 buf' (len + 1) ws'
      else
        -- consecutive spaces: ignore
        parseLoop rest paramCount charCount buf len ws
    else
      -- lines 310-323: accumulate a token character
      let c := if paramCount = 0 then ctolower curRead else curRead
      let buf' := writeBuf buf paramCount charCount c
      let ws' := (paramCount, charCount) :: ws
      if charCount + 1 > MAX_PARAM_LENGTH then
        (⟨buf', -1, ws', some (paramCount, MAX_PARAM_LENGTH)⟩, clearInput rest)
      else
        parseLoop rest paramCount (charCount + 1) buf' len ws'

/-- parse (lines 273-332): clear the array, then run the read loop with
len = 0, paramCount = 0, charCount = 0.  Returns the ParseResult and
the part of the input stream left unread. -/
def parse (input : List Char) (a : Buf) : ParseResult × List Char :=
  parseLoop input 0 0 (clearBuf a) 0 []

/-- Reading a row of the array as a C string: collect characters from
column j until a null character, with fuel bounding the scan. -/
def cstringFrom : Nat → Nat → (Nat → Char) → List Char
  | 0, _, _ => []
  | fuel + 1, j, row =>
    if row j = nullChar then [] else row j :: cstringFrom fuel (j + 1) row

/-- Row i of the array read as a C string (as a[0] is read at line 146). -/
def rowString (b : Buf) (i : Nat) : List Char :=
  cstringFrom (MAX_PARAM_LENGTH + 1) 0 (b i)

/-- The keys of cmdFunctions as populated at startup (lines 340-347). -/
def commandNames : List (List Char) :=
  ["help".toList, "quit".toList, "copy".toList, "list".toList, "run".toList]

/-- What the dispatch step of one main-loop iteration does with a parse
result: skip the line, invoke a registered handler, or print the
unrecognized-command message. -/
inductive DispatchAction where
  | skip : DispatchAction
  | invoke : List Char → DispatchAction
  | unrecognized : List Char → DispatchAction
deriving DecidableEq

/-- The dispatch step of main (lines 141-152): a count of -1 skips the
line entirely; otherwise a[0] is looked up among the registered command
names. -/
def dispatch (r : ParseResult) : DispatchAction :=
  if r.len = -1 then DispatchAction.skip
  else if rowString r.buf 0 ∈ commandNames then
    DispatchAction.invoke (rowString r.buf 0)
  else
    DispatchAction.unrecognized (rowString r.buf 0)

/-- A run of n space characters. -/
def spaces (n : Nat) : List Char := List.replicate n ' '

/-- A line body built from tokens, each followed by a run of spaces of
the given width. -/
def renderBody : List (List Char × Nat) → List Char
  | [] => []
  | (t, s) :: rest => t ++ spaces s ++ renderBody rest

/-- A full input-stream prefix: leading spaces, the body, a newline,
then the rest of the stream. -/
def renderLine (lead : Nat) (ps : List (List Char × Nat)) (S : List Char) :
    List Char :=
  spaces lead ++ renderBody ps ++ '\n' :: S

/-- A well-formed token: nonempty, and holding neither a space nor a
newline. -/
def goodTokB (t : List Char) : Bool :=
  !t.isEmpty && t.all (fun c => c != ' ' && c != '\n')

/-- A well-formed token-separator list: every token is well formed and
every separator except the final one is at least one space wide. -/
def goodPairsB : List (List Char × Nat) → Bool
  | [] => true
  | (t, s) :: rest => goodTokB t && (rest.isEmpty || 1 ≤ s) && goodPairsB rest

/-- State after feeding the characters of one token into the loop:
array, write log, charCount, and whether the too-long error fired. -/
structure FeedR where
  buf : Buf
  ws : List (Nat × Nat)
  cc : Nat
  err : Bool

/-- Feeding the characters of one token through the non-space branch of
the read loop (lines 310-323), starting at charCount = cc. -/
def feedTok : List Char → Nat → Nat → Buf → List (Nat × Nat) → FeedR
  | [], _, cc, buf, ws => ⟨buf, ws, cc, false⟩
  | c :: cs, paramCount, cc, buf, ws =>
    let c' := if paramCount = 0 then ctolower c else c
    let buf' := writeBuf buf paramCount cc c'
    let ws' := (paramCount, cc) :: ws
    if cc + 1 > MAX_PARAM_LENGTH then ⟨buf', ws', cc + 1, true⟩
    else feedTok cs paramCount (cc + 1) buf' ws'

/-- Reference reformulation of the read loop, processing one whole
token per step instead of one character per step.  It is proved below
(parseLoop_renderBody) to agree with parseLoop on every line made of
well-formed tokens; the claims are stated about parse itself. -/
def refRun : List (List Char) → Nat → Buf → Int → List (Nat × Nat) →
    ParseResult
  | [], _, buf, len, ws => ⟨buf, len, ws, none⟩
  | t :: ts, paramCount, buf, len, ws =>
    let f := feedTok t paramCount 0 buf ws
    if f.err then ⟨f.buf, -1, f.ws, some (paramCount, MAX_PARAM_LENGTH)⟩
    else
      let buf' := writeBuf f.buf paramCount f.cc nullChar
      let ws' := (paramCount, f.cc) :: f.ws
      if paramCount + 1 ≥ MAX_PARAMS then ⟨buf', len + 1, ws', none⟩
      else refRun ts (paramCount + 1) buf' (len + 1) ws'

/-- The filesystem: a map from file names to file contents. -/
def FS : Type := List Char → Option (List Char)

/-- Console and filesystem actions a copy invocation can perform, in
order: a console message, opening a file with an input stream (both
createInStream at line 350 and the existence probe of validateOutFile
at line 360), opening a file with an output stream (createOutStream at
line 380, which creates the file or truncates it), and reading the
overwrite-confirmation token from the user (line 369). -/
inductive FsEvent where
  | msg : String → FsEvent
  | openIn : List Char → FsEvent
  | openOut : List Char → FsEvent
  | readConfirm : FsEvent
deriving DecidableEq

/-- createInStream (lines 349-357): open the named file for reading;
report failure when it cannot be opened.  The model equates openability
with existence. -/
def createInStream (fs : FS) (fileName : List Char) : Bool × List FsEvent :=
  match fs fileName with
  | some _ => (true, [FsEvent.openIn fileName])
  | none =>
    (false,
     [FsEvent.openIn fileName,
      FsEvent.msg "File doesn't exist or has invalid permissions.",
      FsEvent.msg "Cannot continue requested operation."])

/-- validateOutFile (lines 359-377): probe the named file with an input
stream; if it exists, warn the user, read one confirmation token
(supplied here as the userInput parameter), and refuse unless that
token is exactly y. -/
def validateOutFile (fs : FS) (fileName : List Char) (userInput : List Char) :
    Bool × List FsEvent :=
  match fs fileName with
  | some _ =>
    if userInput ≠ "y".toList then
      (false,
       [FsEvent.openIn fileName,
        FsEvent.msg "File already exists.",
        FsEvent.msg "If you continue, this file will be overwritten.",
        FsEvent.msg "Do you wish to continue (y/n)? ",
        FsEvent.readConfirm,
        FsEvent.msg "Operation aborted."])
    else
      (true,
       [FsEvent.openIn fileName,
        FsEvent.msg "File already exists.",
        FsEvent.msg "If you continue, this file will be overwritten.",
        FsEvent.msg "Do you wish to continue (y/n)? ",
        FsEvent.readConfirm])
  | none => (true, [FsEvent.openIn fileName])

/-- Result of a copy invocation: the event trace and the filesystem
afterwards. -/
structure CopyResult where
  events : List FsEvent
  fs : FS

/-- copy_cmd (lines 175-209).  a1 and a2 are the C strings a[1] and
a[2]; len is the parameter count; userInput is the token the user would
type at the overwrite prompt.  The three stream checks short-circuit
exactly as the disjunction at lines 193-195 does; when all pass,
createOutStream truncates the destination and the read-write loop at
lines 202-205 copies the source bytes verbatim. -/
def copy_cmd (fs : FS) (userInput : List Char) (a1 a2 : List Char)
    (len : Int) : CopyResult :=
  if len ≠ 3 then
    ⟨[FsEvent.msg "Invalid number of arguments.",
      FsEvent.msg "Usage: copy <old-filename> <new-filename>"], fs⟩
  else if a1 = a2 then
    ⟨[FsEvent.msg "Cannot copy same file!"], fs⟩
  else
    let r1 := createInStream fs a1
    if !r1.1 then ⟨r1.2, fs⟩
    else
      let r2 := validateOutFile fs a2 userInput
      if !r2.1 then ⟨r1.2 ++ r2.2, fs⟩
      else
        -- createOutStream truncates or creates the destination ...
        let fs' : FS := fun n => if n = a2 then some [] else fs n
        -- ... and the loop writes every source byte to it
        let fs'' : FS :=
          fun n => if n = a2 then some ((fs a1).getD []) else fs' n
        ⟨r1.2 ++ r2.2 ++ [FsEvent.openOut a2], fs''⟩

/-- Actions a run invocation can perform, in order: a console message,
the stat metadata query of fileExists (lines 389-393), the unable-to-
find message naming the path (line 248), the fork call, the parent's
wait, and the child's image replacement. -/
inductive RunEvent where
  | msg : String → RunEvent
  | stat : List Char → RunEvent
  | unableToFind : List Char → RunEvent
  | fork : RunEvent
  | wait : RunEvent
  | exec : List Char → RunEvent
deriving DecidableEq

/-- Which way the fork call at line 253 goes in the process at hand:
failure, or the parent branch, or the child branch. -/
inductive ForkOutcome where
  | failed : ForkOutcome
  | parent : ForkOutcome
  | child : ForkOutcome

/-- fileExists (lines 389-393): the stat query succeeds exactly when
the file is present. -/
def fileExists (fs : FS) (fileName : List Char) : Bool :=
  (fs fileName).isSome

/-- run_cmd (lines 239-267), named runCmd here.  a1 is the C string
a[1] and len the parameter count; the returned trace records what the
invocation did in order. -/
def runCmd (fs : FS) (fo : ForkOutcome) (a1 : List Char) (len : Int) :
    List RunEvent :=
  if len ≠ 2 then
    [RunEvent.msg "Invalid number of arguments.",
     RunEvent.msg "Usage: run <executable-file>"]
  else if !fileExists fs a1 then
    [RunEvent.stat a1, RunEvent.unableToFind a1]
  else
    [RunEvent.stat a1, RunEvent.fork] ++
      match fo with
      | ForkOutcome.failed => [RunEvent.msg "Fork failed."]
      | ForkOutcome.parent => [RunEvent.wait]
      | ForkOutcome.child => [RunEvent.exec a1]

/-- Reading back the cell a write just set. -/
theorem writeBuf_same (b : Buf) (i j : Nat) (c : Char) :
    writeBuf b i j c i j = c := by
  simp [writeBuf]

/-- A write leaves every other cell unchanged. -/
theorem writeBuf_other (b : Buf) (i j : Nat) (c : Char) (i' j' : Nat)
    (h : ¬(i' = i ∧ j' = j)) : writeBuf b i j c i' j' = b i' j' := by
  simp only [writeBuf, if_neg h]

theorem spaces_succ (n : Nat) : spaces (n + 1) = ' ' :: spaces n := by
  simp [spaces, List.replicate_succ]

theorem mem_spaces {c : Char} {n : Nat} (h : c ∈ spaces n) : c = ' ' := by
  simpa [spaces] using (List.eq_of_mem_replicate h)

/-- Discarding a line: characters before the newline are all skipped. -/
theorem clearInput_append (xs : List Char) (r : List Char)
    (h : ∀ c ∈ xs, c ≠ '\n') : clearInput (xs ++ r) = clearInput r := by
  induction xs with
  | nil => rfl
  | cons c cs ih =>
    have hc : c ≠ '\n' := h c (List.mem_cons_self c cs)
    rw [List.cons_append, clearInput, if_neg hc]
    exact ih fun d hd => h d (List.mem_cons_of_mem c hd)

theorem clearInput_newline (S : List Char) : clearInput ('\n' :: S) = S := by
  rw [clearInput, if_pos rfl]

/-- With no pending token, a run of spaces is skipped outright. -/
theorem parseLoop_spaces (n : Nat) :
    ∀ (r : List Char) (pc : Nat) (buf : Buf) (len : Int)
      (ws : List (Nat × Nat)),
    parseLoop (spaces n ++ r) pc 0 buf len ws = parseLoop r pc 0 buf len ws := by
  induction n with
  | zero => intro r pc buf len ws; simp [spaces]
  | succ k ih =>
    intro r pc buf len ws
    rw [spaces_succ, List.cons_append, parseLoop]
    rw [if_neg (by decide : ¬((' ' : Char) = '\n')), if_pos rfl,
      if_neg (by decide : ¬(0 > 0))]
    exact ih r pc buf len ws

/-- Reading the characters of one space-free, newline-free token
through the read loop is exactly feedTok followed by either the error
exit (which discards the rest of the line) or the continuation of the
loop on the remaining input. -/
theorem parseLoop_feedTok (t : List Char) :
    ∀ (r : List Char) (pc cc : Nat) (buf : Buf) (len : Int)
      (ws : List (Nat × Nat)),
    (∀ c ∈ t, c ≠ ' ' ∧ c ≠ '\n') →
    parseLoop (t ++ r) pc cc buf len ws =
      (if (feedTok t pc cc buf ws).err then
        (⟨(feedTok t pc cc buf ws).buf, -1, (feedTok t pc cc buf ws).ws,
          some (pc, MAX_PARAM_LENGTH)⟩, clearInput r)
      else
        parseLoop r pc (feedTok t pc cc buf ws).cc
          (feedTok t pc cc buf ws).buf len (feedTok t pc cc buf ws).ws) := by
  induction t with
  | nil =>
    intro r pc cc buf len ws _
    simp [feedTok]
  | cons c cs ih =>
    intro r pc cc buf len ws h
    have hc : c ≠ ' ' ∧ c ≠ '\n' := h c (List.mem_cons_self c cs)
    have hcs : ∀ d ∈ cs, d ≠ ' ' ∧ d ≠ '\n' :=
      fun d hd => h d (List.mem_cons_of_mem c hd)
    rw [List.cons_append, parseLoop, if_neg hc.2, if_neg hc.1]
    rw [feedTok]
    by_cases hlen : cc + 1 > MAX_PARAM_LENGTH
    · rw [if_pos hlen]
      simp only [if_pos hlen]
      have hnl : ∀ d ∈ cs, d ≠ '\n' := fun d hd => (hcs d hd).2
      simp [clearInput_append cs r hnl]
    · rw [if_neg hlen]
      simp only [if_neg hlen]
      exact ih r pc (cc + 1) _ len _ hcs

/-- feedTok leaves charCount at the old value plus the token length
whenever it does not error out. -/
theorem feedTok_cc (t : List Char) :
    ∀ (pc cc : Nat) (buf : Buf) (ws : List (Nat × Nat)),
    (feedTok t pc cc buf ws).err = false →
    (feedTok t pc cc buf ws).cc = cc + t.length := by
  induction t with
  | nil => intro pc cc buf ws _; simp [feedTok]
  | cons c cs ih =>
    intro pc cc buf ws h
    rw [feedTok] at h ⊢
    by_cases hlen : cc + 1 > MAX_PARAM_LENGTH
    · rw [if_pos hlen] at h; exact absurd h (by simp)
    · rw [if_neg hlen] at h ⊢
      rw [ih pc (cc + 1) _ _ h]
      simp [List.length_cons]; omega

theorem goodTokB_iff {t : List Char} :
    goodTokB t = true ↔ t ≠ [] ∧ ∀ c ∈ t, c ≠ ' ' ∧ c ≠ '\n' := by
  simp [goodTokB, List.all_eq_true, List.isEmpty_iff]

theorem goodPairsB_cons {t : List Char} {s : Nat}
    {rest : List (List Char × Nat)} :
    goodPairsB ((t, s) :: rest) = true ↔
      goodTokB t = true ∧ (rest = [] ∨ 1 ≤ s) ∧ goodPairsB rest = true := by
  simp [goodPairsB, Bool.and_eq_true, Bool.or_eq_true, List.isEmpty_iff,
    and_assoc]

/-- A well-formed line body holds no newline character. -/
theorem renderBody_no_newline :
    ∀ (ps : List (List Char × Nat)), goodPairsB ps = true →
    ∀ c ∈ renderBody ps, c ≠ '\n' := by
  intro ps
  induction ps with
  | nil => intro _ c hc; simp [renderBody] at hc
  | cons p rest ih =>
    obtain ⟨t, s⟩ := p
    intro hg c hc
    obtain ⟨ht, _, hrest⟩ := goodPairsB_cons.mp hg
    rw [renderBody, List.mem_append, List.mem_append] at hc
    rcases hc with (hc | hc) | hc
    · exact ((goodTokB_iff.mp ht).2 c hc).2
    · rw [mem_spaces hc]; decide
    · exact ih hrest c hc

/-- The read loop on a line made of well-formed tokens agrees with the
token-at-a-time reference run, and leaves exactly the stream past the
line's newline unread. -/
theorem parseLoop_renderBody :
    ∀ (ps : List (List Char × Nat)) (pc : Nat) (buf : Buf) (len : Int)
      (ws : List (Nat × Nat)) (S : List Char),
    goodPairsB ps = true → pc < MAX_PARAMS →
    parseLoop (renderBody ps ++ '\n' :: S) pc 0 buf len ws =
      (refRun (ps.map Prod.fst) pc buf len ws, S) := by
  intro ps
  induction ps with
  | nil =>
    intro pc buf len ws S _ _
    rw [renderBody, List.nil_append, parseLoop, if_pos rfl,
      if_neg (by decide : ¬(0 > 0))]
    rfl
  | cons p rest ih =>
    obtain ⟨t, s⟩ := p
    intro pc buf len ws S hg hpc
    obtain ⟨ht, hs, hrest⟩ := goodPairsB_cons.mp hg
    obtain ⟨htne, htch⟩ := goodTokB_iff.mp ht
    rw [renderBody, List.append_assoc, List.append_assoc]
    rw [parseLoop_feedTok t _ pc 0 buf len ws htch]
    rw [List.map_cons, refRun]
    by_cases hf : (feedTok t pc 0 buf ws).err
    · rw [if_pos hf]
      simp only [hf, if_true]
      have hnl1 : ∀ c ∈ spaces s, c ≠ '\n' := by
        intro c hc; rw [mem_spaces hc]; decide
      have hnl2 : ∀ c ∈ renderBody rest, c ≠ '\n' :=
        renderBody_no_newline rest hrest
      rw [clearInput_append _ _ hnl1, clearInput_append _ _ hnl2,
        clearInput_newline]
    · rw [if_neg hf]
      simp only [Bool.not_eq_true] at hf
      simp only [hf, Bool.false_eq_true, if_false]
      have hcc : (feedTok t pc 0 buf ws).cc = t.length := by
        simpa using feedTok_cc t pc 0 buf ws hf
      have hpos : (feedTok t pc 0 buf ws).cc > 0 := by
        rw [hcc]; exact List.length_pos.mpr htne
      cases s with
      | zero =>
        have hrnil : rest = [] := by
          rcases hs with h | h
          · exact h
          · omega
        subst hrnil
        rw [renderBody]
        simp only [spaces, List.replicate_zero, List.nil_append]
        rw [parseLoop, if_pos rfl, if_pos hpos]
        by_cases h4 : pc + 1 ≥ MAX_PARAMS
        · rw [if_pos h4]
        · rw [if_neg h4]; rfl
      | succ s' =>
        rw [spaces_succ, List.cons_append, parseLoop,
          if_neg (by decide : ¬((' ' : Char) = '\n')), if_pos rfl,
          if_pos hpos]
        by_cases h4 : pc + 1 ≥ MAX_PARAMS
        · rw [if_pos h4, if_pos h4]
          have hnl1 : ∀ c ∈ spaces s', c ≠ '\n' := by
            intro c hc; rw [mem_spaces hc]; decide
          have hnl2 : ∀ c ∈ renderBody rest, c ≠ '\n' :=
            renderBody_no_newline rest hrest
          rw [clearInput_append _ _ hnl1, clearInput_append _ _ hnl2,
            clearInput_newline]
        · rw [if_neg h4, if_neg h4]
          rw [parseLoop_spaces s' _ (pc + 1) _ _ _]
          exact ih (pc + 1) _ _ _ S hrest (by omega)

/-- parse on a full rendered line is the reference run over the line's
tokens, with exactly the stream past the newline left unread. -/
theorem parse_render (lead : Nat) (ps : List (List Char × Nat))
    (S : List Char) (buf : Buf) (h : goodPairsB ps = true) :
    parse (renderLine lead ps S) buf =
      (refRun (ps.map Prod.fst) 0 (clearBuf buf) 0 [], S) := by
  rw [parse, renderLine, List.append_assoc, parseLoop_spaces lead _ 0 _ _ _]
  exact parseLoop_renderBody ps 0 (clearBuf buf) 0 [] S h (by decide)

/-- When a token fits, feedTok succeeds, writes exactly the token's
characters (lowercased in row 0) at columns cc onward of row pc, and
touches nothing else. -/
theorem feedTok_ok (t : List Char) :
    ∀ (pc cc : Nat) (buf : Buf) (ws : List (Nat × Nat)),
    cc + t.length ≤ MAX_PARAM_LENGTH →
    (feedTok t pc cc buf ws).err = false ∧
    (∀ i j, ¬(i = pc ∧ cc ≤ j ∧ j < cc + t.length) →
      (feedTok t pc cc buf ws).buf i j = buf i j) ∧
    (∀ k, k < t.length →
      (feedTok t pc cc buf ws).buf pc (cc + k) =
        (if pc = 0 then ctolower (t.getD k ' ') else t.getD k ' ')) := by
  induction t with
  | nil =>
    intro pc cc buf ws _
    refine ⟨rfl, fun i j _ => rfl, fun k hk => by simp at hk⟩
  | cons c cs ih =>
    intro pc cc buf ws h
    rw [List.length_cons] at h
    have hlen : ¬(cc + 1 > MAX_PARAM_LENGTH) := by omega
    rw [feedTok]
    simp only [if_neg hlen]
    obtain ⟨iherr, ihframe, ihcont⟩ :=
      ih pc (cc + 1)
        (writeBuf buf pc cc (if pc = 0 then ctolower c else c))
        ((pc, cc) :: ws) (by omega)
    refine ⟨iherr, ?_, ?_⟩
    · intro i j hij
      have hij' : ¬(i = pc ∧ cc + 1 ≤ j ∧ j < cc + 1 + cs.length) := by
        intro hc
        exact hij ⟨hc.1, by omega, by rw [List.length_cons]; omega⟩
      rw [ihframe i j hij']
      apply writeBuf_other
      intro hc
      exact hij ⟨hc.1, by omega, by rw [List.length_cons]; omega⟩
    · intro k hk
      cases k with
      | zero =>
        have hfr :
            (feedTok cs pc (cc + 1)
              (writeBuf buf pc cc (if pc = 0 then ctolower c else c))
              ((pc, cc) :: ws)).buf pc (cc + 0) =
            writeBuf buf pc cc (if pc = 0 then ctolower c else c) pc
              (cc + 0) :=
          ihframe pc (cc + 0) (by intro hc; omega)
        rw [hfr]
        show writeBuf buf pc cc _ pc cc = _
        rw [writeBuf_same]
        rfl
      | succ k' =>
        rw [List.length_cons] at hk
        have heq : cc + (k' + 1) = (cc + 1) + k' := by omega
        rw [heq, ihcont k' (by omega)]
        rfl

/-- When a token does not fit in the space left, feedTok errors. -/
theorem feedTok_err_of (t : List Char) :
    ∀ (pc cc : Nat) (buf : Buf) (ws : List (Nat × Nat)),
    cc ≤ MAX_PARAM_LENGTH → MAX_PARAM_LENGTH < cc + t.length →
    (feedTok t pc cc buf ws).err = true := by
  induction t with
  | nil => intro pc cc buf ws h1 h2; simp at h2; omega
  | cons c cs ih =>
    intro pc cc buf ws h1 h2
    rw [List.length_cons] at h2
    rw [feedTok]
    by_cases hlen : cc + 1 > MAX_PARAM_LENGTH
    · simp only [if_pos hlen]
    · simp only [if_neg hlen]
      exact ih pc (cc + 1) _ _ (by omega) (by omega)

/-- The reference run on tokens that all fit: no error, the count grows
by the number of tokens kept (all of them, capped at the free slots),
rows below the starting slot are untouched, and each kept token is laid
out in its row, lowercased in row 0, with a null terminator after it. -/
theorem refRun_content :
    ∀ (toks : List (List Char)) (pc : Nat) (buf : Buf) (len : Int)
      (ws : List (Nat × Nat)),
    pc < MAX_PARAMS →
    (∀ i, i < min toks.length (MAX_PARAMS - pc) →
      (toks.getD i []).length ≤ MAX_PARAM_LENGTH) →
    (refRun toks pc buf len ws).len =
      len + (min toks.length (MAX_PARAMS - pc) : Nat) ∧
    (refRun toks pc buf len ws).err = none ∧
    (∀ i j, i < pc → (refRun toks pc buf len ws).buf i j = buf i j) ∧
    (∀ i, i < min toks.length (MAX_PARAMS - pc) →
      (∀ j, j < (toks.getD i []).length →
        (refRun toks pc buf len ws).buf (pc + i) j =
          (if pc + i = 0 then ctolower ((toks.getD i []).getD j ' ')
           else (toks.getD i []).getD j ' ')) ∧
      (refRun toks pc buf len ws).buf (pc + i) (toks.getD i []).length =
        nullChar) := by
  intro toks
  induction toks with
  | nil =>
    intro pc buf len ws hpc _
    refine ⟨by simp [refRun], by simp [refRun], fun i j _ => rfl, ?_⟩
    intro i hi
    simp at hi
  | cons t ts ih =>
    intro pc buf len ws hpc hlen
    have hm : 0 < min (t :: ts).length (MAX_PARAMS - pc) := by
      rw [List.length_cons]
      have : 0 < MAX_PARAMS - pc := by
        rw [show MAX_PARAMS = 4 from rfl] at hpc ⊢; omega
      omega
    have ht : t.length ≤ MAX_PARAM_LENGTH := by
      have := hlen 0 hm
      simpa using this
    obtain ⟨herr, hframe, hcont⟩ :=
      feedTok_ok t pc 0 buf ws (by omega)
    rw [refRun]
    simp only [herr, Bool.false_eq_true, if_false]
    have hcc : (feedTok t pc 0 buf ws).cc = t.length := by
      simpa using feedTok_cc t pc 0 buf ws herr
    set f := feedTok t pc 0 buf ws with hf
    set buf1 := writeBuf f.buf pc f.cc nullChar with hbuf1
    have hrow : (∀ j, j < t.length →
        buf1 pc j = (if pc = 0 then ctolower (t.getD j ' ')
          else t.getD j ' ')) ∧ buf1 pc t.length = nullChar := by
      constructor
      · intro j hj
        rw [hbuf1, writeBuf_other _ _ _ _ _ _ (by rw [hcc]; omega)]
        have := hcont j hj
        simpa using this
      · rw [hbuf1, hcc, writeBuf_same]
    have hframe1 : ∀ i j, i ≠ pc → buf1 i j = buf i j := by
      intro i j hi
      rw [hbuf1, writeBuf_other _ _ _ _ _ _ (by tauto)]
      exact hframe i j (by tauto)
    by_cases h4 : pc + 1 ≥ MAX_PARAMS
    · rw [if_pos h4]
      have hmin : min (t :: ts).length (MAX_PARAMS - pc) = 1 := by
        rw [List.length_cons]
        rw [show MAX_PARAMS = 4 from rfl] at hpc h4 ⊢
        omega
      refine ⟨by rw [hmin]; simp, rfl, ?_, ?_⟩
      · intro i j hi
        exact hframe1 i j (by omega)
      · intro i hi
        rw [hmin] at hi
        have hi0 : i = 0 := by omega
        subst hi0
        rw [Nat.add_zero]
        simpa using hrow
    · rw [if_neg h4]
      have hpc1 : pc + 1 < MAX_PARAMS := by omega
      have hsub : MAX_PARAMS - pc = (MAX_PARAMS - (pc + 1)) + 1 := by
        rw [show MAX_PARAMS = 4 from rfl] at hpc ⊢; omega
      have hlen' : ∀ i, i < min ts.length (MAX_PARAMS - (pc + 1)) →
          (ts.getD i []).length ≤ MAX_PARAM_LENGTH := by
        intro i hi
        have := hlen (i + 1) (by rw [List.length_cons, hsub]; omega)
        simpa using this
      obtain ⟨ihlen, iherr, ihframe, ihcont⟩ :=
        ih (pc + 1) buf1 (len + 1) ((pc, f.cc) :: f.ws) hpc1 hlen'
      have hminsucc : min (t :: ts).length (MAX_PARAMS - pc) =
          min ts.length (MAX_PARAMS - (pc + 1)) + 1 := by
        rw [List.length_cons, hsub]; omega
      refine ⟨?_, iherr, ?_, ?_⟩
      · rw [ihlen, hminsucc]
        push_cast
        ring
      · intro i j hi
        rw [ihframe i j (by omega)]
        exact hframe1 i j (by omega)
      · intro i hi
        by_cases hi0 : i = 0
        · subst hi0
          have hr0 : ∀ j, (refRun ts (pc + 1) buf1 (len + 1)
              ((pc, f.cc) :: f.ws)).buf pc j = buf1 pc j :=
            fun j => ihframe pc j (by omega)
          refine ⟨?_, ?_⟩
          · intro j hj
            simp only [Nat.add_zero]
            rw [hr0 j]
            have := hrow.1 j (by simpa using hj)
            simpa using this
          · simp only [Nat.add_zero]
            rw [hr0]
            simpa using hrow.2
        · obtain ⟨i', rfl⟩ := Nat.exists_eq_succ_of_ne_zero hi0
          rw [hminsucc] at hi
          have hi' : i' < min ts.length (MAX_PARAMS - (pc + 1)) := by
            omega
          obtain ⟨hc1, hc2⟩ := ihcont i' hi'
          have haddeq : pc + (i' + 1) = (pc + 1) + i' := by omega
          have hne0' : ¬((pc + 1) + i' = 0) := by omega
          refine ⟨?_, ?_⟩
          · intro j hj
            rw [haddeq]
            rw [hc1 j (by simpa using hj)]
            rw [if_neg hne0']
            rw [if_neg hne0']
            rfl
          · rw [haddeq]
            simpa using hc2

/-- The reference run on a token list whose first over-long token sits
at an index the loop actually scans: the run aborts with count -1 and
the diagnostic carries that token's 0-based slot index and the
limit. -/
theorem refRun_err :
    ∀ (toks : List (List Char)) (k pc : Nat) (buf : Buf) (len : Int)
      (ws : List (Nat × Nat)),
    k < toks.length → pc + k < MAX_PARAMS →
    (∀ i, i < k → (toks.getD i []).length ≤ MAX_PARAM_LENGTH) →
    MAX_PARAM_LENGTH < (toks.getD k []).length →
    (refRun toks pc buf len ws).len = -1 ∧
    (refRun toks pc buf len ws).err = some (pc + k, MAX_PARAM_LENGTH) := by
  intro toks
  induction toks with
  | nil =>
    intro k pc buf len ws hk _ _ _
    simp at hk
  | cons t ts ih =>
    intro k pc buf len ws hk hpck hpre hbad
    by_cases hk0 : k = 0
    · subst hk0
      have hbad' : MAX_PARAM_LENGTH < t.length := by simpa using hbad
      have herr : (feedTok t pc 0 buf ws).err = true :=
        feedTok_err_of t pc 0 buf ws (by omega) (by omega)
      rw [refRun]
      simp only [herr, if_true]
      exact ⟨by simp, by simp⟩
    · obtain ⟨k', rfl⟩ := Nat.exists_eq_succ_of_ne_zero hk0
      have ht : t.length ≤ MAX_PARAM_LENGTH := by
        have := hpre 0 (by omega)
        simpa using this
      obtain ⟨herr, _, _⟩ := feedTok_ok t pc 0 buf ws (by omega)
      rw [refRun]
      simp only [herr, Bool.false_eq_true, if_false]
      have h4 : ¬(pc + 1 ≥ MAX_PARAMS) := by
        rw [show MAX_PARAMS = 4 from rfl] at hpck ⊢
        omega
      rw [if_neg h4]
      have hres := ih k' (pc + 1)
        (writeBuf (feedTok t pc 0 buf ws).buf pc
          (feedTok t pc 0 buf ws).cc nullChar)
        (len + 1)
        ((pc, (feedTok t pc 0 buf ws).cc) :: (feedTok t pc 0 buf ws).ws)
        (by rw [List.length_cons] at hk; omega)
        (by omega)
        (fun i hi => by
          have := hpre (i + 1) (by omega)
          simpa using this)
        (by simpa using hbad)
      refine ⟨hres.1, ?_⟩
      rw [hres.2]
      have heq : pc + 1 + k' = pc + k'.succ := by omega
      rw [heq]

/-- Every cell the read loop writes beyond those already logged lies in
row 0 .. MAX_PARAMS - 1 at a column no greater than MAX_PARAM_LENGTH,
provided the loop starts from a state within those bounds.  This holds
for every input stream whatsoever. -/
theorem parseLoop_writes :
    ∀ (input : List Char) (pc cc : Nat) (buf : Buf) (len : Int)
      (ws : List (Nat × Nat)),
    pc < MAX_PARAMS → cc ≤ MAX_PARAM_LENGTH →
    ∀ w ∈ (parseLoop input pc cc buf len ws).1.writes,
      w ∈ ws ∨ (w.1 < MAX_PARAMS ∧ w.2 ≤ MAX_PARAM_LENGTH) := by
  intro input
  induction input with
  | nil =>
    intro pc cc buf len ws _ _ w hw
    exact Or.inl hw
  | cons c rest ih =>
    intro pc cc buf len ws hpc hcc w hw
    rw [parseLoop] at hw
    by_cases hnl : c = '\n'
    · rw [if_pos hnl] at hw
      by_cases hcc0 : cc > 0
      · rw [if_pos hcc0] at hw
        simp only [List.mem_cons] at hw
        rcases hw with h | h
        · right; rw [h]; exact ⟨hpc, hcc⟩
        · exact Or.inl h
      · rw [if_neg hcc0] at hw
        exact Or.inl hw
    · rw [if_neg hnl] at hw
      by_cases hsp : c = ' '
      · rw [if_pos hsp] at hw
        by_cases hcc0 : cc > 0
        · rw [if_pos hcc0] at hw
          by_cases h4 : pc + 1 ≥ MAX_PARAMS
          · rw [if_pos h4] at hw
            simp only [List.mem_cons] at hw
            rcases hw with h | h
            · right; rw [h]; exact ⟨hpc, hcc⟩
            · exact Or.inl h
          · rw [if_neg h4] at hw
            have := ih (pc + 1) 0 _ (len + 1) _ (by omega) (by omega) w hw
            rcases this with h | h
            · simp only [List.mem_cons] at h
              rcases h with h | h
              · right; rw [h]; exact ⟨hpc, hcc⟩
              · exact Or.inl h
            · exact Or.inr h
        · rw [if_neg hcc0] at hw
          exact ih pc cc buf len ws hpc hcc w hw
      · rw [if_neg hsp] at hw
        by_cases hlong : cc + 1 > MAX_PARAM_LENGTH
        · rw [if_pos hlong] at hw
          simp only [List.mem_cons] at hw
          rcases hw with h | h
          · right; rw [h]; exact ⟨hpc, hcc⟩
          · exact Or.inl h
        · rw [if_neg hlong] at hw
          have := ih pc (cc + 1) _ len _ hpc (by omega) w hw
          rcases this with h | h
          · simp only [List.mem_cons] at h
            rcases h with h | h
            · right; rw [h]; exact ⟨hpc, hcc⟩
            · exact Or.inl h
          · exact Or.inr h

/-- Reading a token out of a token-separator pair list. -/
theorem getD_map_fst (ps : List (List Char × Nat)) (i : Nat) :
    (ps.map Prod.fst).getD i [] = (ps.getD i ([], 0)).1 := by
  induction ps generalizing i with
  | nil => simp
  | cons p rest ih =>
    cases i with
    | zero => simp
    | succ i' => simpa using ih i'

/-- C7: any two input lines holding the same token sequence, with the
tokens separated by runs of one or more spaces and with any number of
leading or trailing spaces, produce the same ParseResult - in
particular the same parameter array and the same count - and runs of
spaces never produce an empty token (tokens here are nonempty by
construction, and the count proved elsewhere equals the token count). -/
theorem c7_whitespace_runs_equiv (ps1 ps2 : List (List Char × Nat))
    (lead1 lead2 : Nat) (S1 S2 : List Char) (buf : Buf)
    (h1 : goodPairsB ps1 = true) (h2 : goodPairsB ps2 = true)
    (heq : ps1.map Prod.fst = ps2.map Prod.fst) :
    (parse (renderLine lead1 ps1 S1) buf).1 =
      (parse (renderLine lead2 ps2 S2) buf).1 := by
  rw [parse_render lead1 ps1 S1 buf h1, parse_render lead2 ps2 S2 buf h2,
    heq]

/-- Witness for C7 at the spec's own example: the line with extra
spaces around list and . parses the same as the single-spaced one. -/
theorem c7_whitespace_runs_equiv_witness :
    goodPairsB [("list".toList, 4), (".".toList, 2)] = true ∧
    goodPairsB [("list".toList, 1), (".".toList, 0)] = true ∧
    [("list".toList, 4), (".".toList, 2)].map Prod.fst =
      [("list".toList, 1), (".".toList, 0)].map Prod.fst ∧
    (parse (renderLine 3 [("list".toList, 4), (".".toList, 2)] [])
        (fun _ _ => nullChar)).1 =
      (parse (renderLine 0 [("list".toList, 1), (".".toList, 0)] [])
        (fun _ _ => nullChar)).1 :=
  ⟨by decide, by decide, by decide,
    c7_whitespace_runs_equiv _ _ _ _ _ _ _ (by decide) (by decide)
      (by decide)⟩

/-- C9: on every input stream, every cell the tokenizer writes lies at
a row index below MAX_PARAMS and a column index at most
MAX_PARAM_LENGTH, i.e. inside the allocated MAX_PARAMS rows of
MAX_PARAM_LENGTH + 1 chars each. -/
theorem c9_writes_in_bounds (input : List Char) (buf : Buf) :
    ∀ w ∈ (parse input buf).1.writes,
      w.1 < MAX_PARAMS ∧ w.2 ≤ MAX_PARAM_LENGTH := by
  intro w hw
  have h := parseLoop_writes input 0 0 (clearBuf buf) 0 []
    (by decide) (by decide) w hw
  rcases h with h | h
  · simp at h
  · exact h

/-- Witness for C9: a concrete write of the logged ones on a concrete
line is in bounds. -/
theorem c9_writes_in_bounds_witness :
    ((0, 2) ∈ (parse "ab cd\n".toList (fun _ _ => nullChar)).1.writes) ∧
    ((0, 2) : Nat × Nat).1 < MAX_PARAMS ∧
    ((0, 2) : Nat × Nat).2 ≤ MAX_PARAM_LENGTH :=
  ⟨by decide,
    c9_writes_in_bounds "ab cd\n".toList (fun _ _ => nullChar) (0, 2)
      (by decide)⟩

/-- C4: a copy invocation with count 3 whose source and destination
name strings are byte-for-byte identical emits only the cannot-copy-
same-file message - no file is opened, created, read or written - and
leaves the filesystem unchanged, whether or not the named file
exists. -/
theorem c4_same_file_no_fs_ops (fs : FS) (userInput a1 : List Char) :
    (copy_cmd fs userInput a1 a1 3).events =
      [FsEvent.msg "Cannot copy same file!"] ∧
    (copy_cmd fs userInput a1 a1 3).fs = fs := by
  constructor <;> simp [copy_cmd]

/-- C8: when the destination exists, the overwrite confirmation lets
the operation continue exactly when the response token is the exact
string y; every other token - including Y, yes and n - takes the abort
path. -/
theorem c8_only_exact_y_continues (fs : FS) (name userInput d : List Char)
    (hex : fs name = some d) :
    (validateOutFile fs name userInput).1 = true ↔
      userInput = "y".toList := by
  rw [validateOutFile, hex]
  by_cases hy : userInput = "y".toList
  · rw [if_neg (not_not_intro hy)]
    simp [hy]
  · rw [if_pos hy]
    simp only [Prod.fst]
    constructor
    · intro h
      exact absurd h (by decide)
    · intro h
      exact absurd (h.trans rfl) hy

/-- Witness for C8: with an existing destination, the answer yes (not
the exact token y) does not let the operation continue. -/
theorem c8_only_exact_y_continues_witness :
    ((fun n => if n = "e".toList then some "d".toList else none) "e".toList
      = some "d".toList) ∧
    ((validateOutFile
        (fun n => if n = "e".toList then some "d".toList else none)
        "e".toList "yes".toList).1 = true ↔ "yes".toList = "y".toList) :=
  ⟨by decide,
    c8_only_exact_y_continues
      (fun n => if n = "e".toList then some "d".toList else none)
      "e".toList "yes".toList "d".toList (by decide)⟩

/-- C6: a run invocation with count 2 performs the stat existence query
first; when the file is absent the whole trace is the query followed by
the unable-to-find message naming the path, with no fork; and a fork
happens exactly when the existence query succeeds. -/
theorem c6_exists_check_before_fork (fs : FS) (fo : ForkOutcome)
    (a1 : List Char) :
    (runCmd fs fo a1 2).head? = some (RunEvent.stat a1) ∧
    (fs a1 = none →
      runCmd fs fo a1 2 = [RunEvent.stat a1, RunEvent.unableToFind a1]) ∧
    (RunEvent.fork ∈ runCmd fs fo a1 2 ↔ (fs a1).isSome = true) := by
  rw [runCmd.eq_def, if_neg (by decide : ¬((2 : Int) ≠ 2))]
  cases hfs : fs a1 with
  | none =>
    refine ⟨?_, ?_, ?_⟩
    · simp [fileExists, hfs]
    · intro _; simp [fileExists, hfs]
    · simp [fileExists, hfs]
  | some v =>
    refine ⟨?_, ?_, ?_⟩
    · simp [fileExists, hfs]
    · intro hc; exact absurd hc (by simp)
    · cases fo <;> simp [fileExists, hfs]

/-- Witness for C6: with an empty filesystem the run invocation only
reports, and no fork event appears. -/
theorem c6_exists_check_before_fork_witness :
    ((fun _ : List Char => (none : Option (List Char))) "p".toList = none) ∧
    runCmd (fun _ => none) ForkOutcome.parent "p".toList 2 =
      [RunEvent.stat "p".toList, RunEvent.unableToFind "p".toList] :=
  ⟨rfl,
    (c6_exists_check_before_fork (fun _ => none) ForkOutcome.parent
      "p".toList).2.1 rfl⟩

/-- C5: a copy invocation with count 3, distinct names, a readable
source and an existing destination, where the confirmation response is
not the affirmative token, aborts with the operation-aborted message,
never opens the destination for writing, and leaves the filesystem -
in particular the destination's contents - unchanged. -/
theorem c5_declined_overwrite_unchanged (fs : FS)
    (userInput a1 a2 src dst : List Char)
    (hne : a1 ≠ a2) (hsrc : fs a1 = some src) (hdst : fs a2 = some dst)
    (hno : userInput ≠ "y".toList) :
    (copy_cmd fs userInput a1 a2 3).fs = fs ∧
    (copy_cmd fs userInput a1 a2 3).fs a2 = some dst ∧
    FsEvent.openOut a2 ∉ (copy_cmd fs userInput a1 a2 3).events ∧
    FsEvent.msg "Operation aborted." ∈ (copy_cmd fs userInput a1 a2 3).events := by
  have hres : copy_cmd fs userInput a1 a2 3 =
      ⟨[FsEvent.openIn a1] ++
       [FsEvent.openIn a2,
        FsEvent.msg "File already exists.",
        FsEvent.msg "If you continue, this file will be overwritten.",
        FsEvent.msg "Do you wish to continue (y/n)? ",
        FsEvent.readConfirm,
        FsEvent.msg "Operation aborted."], fs⟩ := by
    rw [copy_cmd, if_neg (by decide : ¬((3 : Int) ≠ 3)), if_neg hne]
    simp only [createInStream, hsrc, validateOutFile, hdst, if_pos hno]
    rfl
  rw [hres]
  refine ⟨rfl, hdst, ?_, ?_⟩
  · simp
  · simp

/-- Witness for C5: concrete two-file filesystem, declined with n. -/
theorem c5_declined_overwrite_unchanged_witness :
    ("s".toList ≠ "e".toList) ∧
    ((fun n => if n = "s".toList then some "sc".toList
       else if n = "e".toList then some "dc".toList else none) "s".toList
      = some "sc".toList) ∧
    ((fun n => if n = "s".toList then some "sc".toList
       else if n = "e".toList then some "dc".toList else none) "e".toList
      = some "dc".toList) ∧
    ("n".toList ≠ "y".toList) ∧
    ((copy_cmd
        (fun n => if n = "s".toList then some "sc".toList
          else if n = "e".toList then some "dc".toList else none)
        "n".toList "s".toList "e".toList 3).fs = (fun n =>
          if n = "s".toList then some "sc".toList
          else if n = "e".toList then some "dc".toList else none) ∧
      (copy_cmd
        (fun n => if n = "s".toList then some "sc".toList
          else if n = "e".toList then some "dc".toList else none)
        "n".toList "s".toList "e".toList 3).fs "e".toList
        = some "dc".toList ∧
      FsEvent.openOut "e".toList ∉
        (copy_cmd
          (fun n => if n = "s".toList then some "sc".toList
            else if n = "e".toList then some "dc".toList else none)
          "n".toList "s".toList "e".toList 3).events ∧
      FsEvent.msg "Operation aborted." ∈
        (copy_cmd
          (fun n => if n = "s".toList then some "sc".toList
            else if n = "e".toList then some "dc".toList else none)
          "n".toList "s".toList "e".toList 3).events) :=
  ⟨by decide, by decide, by decide, by decide,
    c5_declined_overwrite_unchanged _ "n".toList "s".toList "e".toList
      "sc".toList "dc".toList (by decide) (by decide) (by decide)
      (by decide)⟩

/-- C1 counterexample: a line holding one token of 101 as, whose
1-based position is 1.  parse aborts with count -1 as the claim says,
but the diagnostic prints the pair (0, 100): the offending parameter is
named by its 0-based index paramCount (line 319), not its 1-based
position, so the claim as stated is false on this input. -/
theorem c1_diag_not_one_based :
    (parse (List.replicate 101 'a' ++ ['\n']) (fun _ _ => nullChar)).1.len
      = -1 ∧
    (parse (List.replicate 101 'a' ++ ['\n']) (fun _ _ => nullChar)).1.err
      = some (0, MAX_PARAM_LENGTH) ∧
    (0 : Nat) ≠ 1 := by
  refine ⟨by decide, by decide, by decide⟩

/-- C1 amended: for every input line whose first over-long token (more
than MAX_PARAM_LENGTH characters) sits among the first MAX_PARAMS
tokens, parse aborts that line, discards the rest of the line's input,
sets the count to -1, and emits a diagnostic naming the offending
parameter's 0-based index together with the limit MAX_PARAM_LENGTH. -/
theorem c1_overlong_token_aborts (lead : Nat)
    (ps : List (List Char × Nat)) (S : List Char) (buf : Buf) (k : Nat)
    (hg : goodPairsB ps = true) (hk : k < ps.length) (hk4 : k < MAX_PARAMS)
    (hpre : ∀ i, i < k →
      ((ps.getD i ([], 0)).1).length ≤ MAX_PARAM_LENGTH)
    (hbad : MAX_PARAM_LENGTH < ((ps.getD k ([], 0)).1).length) :
    (parse (renderLine lead ps S) buf).1.len = -1 ∧
    (parse (renderLine lead ps S) buf).1.err =
      some (k, MAX_PARAM_LENGTH) ∧
    (parse (renderLine lead ps S) buf).2 = S := by
  have hp1 : (parse (renderLine lead ps S) buf).1 =
      refRun (ps.map Prod.fst) 0 (clearBuf buf) 0 [] := by
    rw [parse_render lead ps S buf hg]
  have hp2 : (parse (renderLine lead ps S) buf).2 = S := by
    rw [parse_render lead ps S buf hg]
  rw [hp1]
  have h := refRun_err (ps.map Prod.fst) k 0 (clearBuf buf) 0 []
    (by rw [List.length_map]; exact hk)
    (by simpa using hk4)
    (fun i hi => by rw [getD_map_fst]; exact hpre i hi)
    (by rw [getD_map_fst]; exact hbad)
  refine ⟨h.1, ?_, hp2⟩
  rw [h.2]
  simp

/-- Witness for the amended C1: one token of 101 bs aborts the line and
the diagnostic names index 0 and the limit 100. -/
theorem c1_overlong_token_aborts_witness :
    goodPairsB [(List.replicate 101 'b', 0)] = true ∧
    0 < [(List.replicate 101 'b', (0 : Nat))].length ∧
    0 < MAX_PARAMS ∧
    MAX_PARAM_LENGTH <
      (([(List.replicate 101 'b', (0 : Nat))].getD 0 ([], 0)).1).length ∧
    ((parse (renderLine 0 [(List.replicate 101 'b', 0)] "q".toList)
        (fun _ _ => nullChar)).1.len = -1 ∧
      (parse (renderLine 0 [(List.replicate 101 'b', 0)] "q".toList)
        (fun _ _ => nullChar)).1.err = some (0, MAX_PARAM_LENGTH) ∧
      (parse (renderLine 0 [(List.replicate 101 'b', 0)] "q".toList)
        (fun _ _ => nullChar)).2 = "q".toList) :=
  ⟨by decide, by decide, by decide, by decide,
    c1_overlong_token_aborts 0 [(List.replicate 101 'b', 0)] "q".toList
      (fun _ _ => nullChar) 0 (by decide) (by decide) (by decide)
      (fun i hi => absurd hi (by omega)) (by decide)⟩

/-- C2: a single token of length exactly MAX_PARAM_LENGTH is accepted
(count 1, no error), while a single token of length
MAX_PARAM_LENGTH + 1 yields the parse-error count -1, on which the
dispatcher skips the line: no lookup and no unrecognized-command
message. -/
theorem c2_boundary_lengths (t : List Char) (S : List Char) (buf : Buf)
    (hg : goodTokB t = true) :
    (t.length = MAX_PARAM_LENGTH →
      (parse (t ++ '\n' :: S) buf).1.len = 1) ∧
    (t.length = MAX_PARAM_LENGTH + 1 →
      (parse (t ++ '\n' :: S) buf).1.len = -1 ∧
      dispatch (parse (t ++ '\n' :: S) buf).1 = DispatchAction.skip) := by
  have hps : goodPairsB [(t, 0)] = true := by
    simp [goodPairsB, hg]
  have hrl : t ++ '\n' :: S = renderLine 0 [(t, 0)] S := by
    simp [renderLine, renderBody, spaces]
  have hp1 : (parse (t ++ '\n' :: S) buf).1 =
      refRun [t] 0 (clearBuf buf) 0 [] := by
    rw [hrl, parse_render 0 [(t, 0)] S buf hps]
    rfl
  rw [hp1]
  have hmin : min ([t].length) (MAX_PARAMS - 0) = 1 := by
    simp [MAX_PARAMS]
  constructor
  · intro hlen
    have h := refRun_content [t] 0 (clearBuf buf) 0 [] (by decide)
      (fun i hi => by
        rw [hmin] at hi
        have hi0 : i = 0 := by omega
        subst hi0
        simp [hlen])
    rw [hmin] at h
    rw [h.1]
    simp
  · intro hlen
    have h := refRun_err [t] 0 0 (clearBuf buf) 0 []
      (by simp) (by decide)
      (fun i hi => absurd hi (by omega))
      (by simp [hlen, MAX_PARAM_LENGTH])
    refine ⟨h.1, ?_⟩
    rw [dispatch, if_pos h.1]

/-- Witness for C2 at a token of 100 xs and a token of 100 xs plus one
more. -/
theorem c2_boundary_lengths_witness :
    goodTokB (List.replicate 100 'x') = true ∧
    goodTokB (List.replicate 101 'x') = true ∧
    ((List.replicate 100 'x').length = MAX_PARAM_LENGTH →
      (parse (List.replicate 100 'x' ++ '\n' :: [])
        (fun _ _ => nullChar)).1.len = 1) ∧
    ((List.replicate 101 'x').length = MAX_PARAM_LENGTH + 1 →
      (parse (List.replicate 101 'x' ++ '\n' :: [])
        (fun _ _ => nullChar)).1.len = -1 ∧
      dispatch (parse (List.replicate 101 'x' ++ '\n' :: [])
        (fun _ _ => nullChar)).1 = DispatchAction.skip) :=
  ⟨by decide, by decide,
    (c2_boundary_lengths (List.replicate 100 'x') []
      (fun _ _ => nullChar) (by decide)).1,
    (c2_boundary_lengths (List.replicate 101 'x') []
      (fun _ _ => nullChar) (by decide)).2⟩

/-- C3: a line that would produce more than MAX_PARAMS tokens (each of
the first MAX_PARAMS within the length limit) yields exactly the first
MAX_PARAMS tokens in order - laid out in their rows with terminators,
the first lowercased - with the non-error count MAX_PARAMS, and the
rest of the line is discarded: the stream past the newline is exactly
what the next read starts from. -/
theorem c3_truncates_to_max_params (lead : Nat)
    (ps : List (List Char × Nat)) (S : List Char) (buf : Buf)
    (hg : goodPairsB ps = true) (hmore : MAX_PARAMS < ps.length)
    (hlen : ∀ i, i < MAX_PARAMS →
      ((ps.getD i ([], 0)).1).length ≤ MAX_PARAM_LENGTH) :
    (parse (renderLine lead ps S) buf).1.len = (MAX_PARAMS : Int) ∧
    (parse (renderLine lead ps S) buf).1.err = none ∧
    (parse (renderLine lead ps S) buf).2 = S ∧
    (∀ i, i < MAX_PARAMS →
      (∀ j, j < ((ps.getD i ([], 0)).1).length →
        (parse (renderLine lead ps S) buf).1.buf i j =
          (if i = 0 then ctolower (((ps.getD i ([], 0)).1).getD j ' ')
           else ((ps.getD i ([], 0)).1).getD j ' ')) ∧
      (parse (renderLine lead ps S) buf).1.buf i
        ((ps.getD i ([], 0)).1).length = nullChar) := by
  have hp1 : (parse (renderLine lead ps S) buf).1 =
      refRun (ps.map Prod.fst) 0 (clearBuf buf) 0 [] := by
    rw [parse_render lead ps S buf hg]
  have hp2 : (parse (renderLine lead ps S) buf).2 = S := by
    rw [parse_render lead ps S buf hg]
  rw [hp1]
  have hmin : min ((ps.map Prod.fst).length) (MAX_PARAMS - 0) =
      MAX_PARAMS := by
    rw [List.length_map, Nat.sub_zero]
    omega
  have h := refRun_content (ps.map Prod.fst) 0 (clearBuf buf) 0 []
    (by decide)
    (fun i hi => by
      rw [hmin] at hi
      rw [getD_map_fst]
      exact hlen i hi)
  obtain ⟨h1, h2, _, h4⟩ := h
  rw [hmin] at h1 h4
  refine ⟨by rw [h1]; simp, h2, hp2, ?_⟩
  intro i hi
  obtain ⟨hc1, hc2⟩ := h4 i hi
  rw [getD_map_fst] at hc1 hc2
  constructor
  · intro j hj
    have := hc1 j hj
    simpa using this
  · simpa using hc2

/-- Witness for C3: five one-letter tokens yield the first four with
count 4, and the fifth does not leak into the next read. -/
theorem c3_truncates_to_max_params_witness :
    goodPairsB [("a".toList, 1), ("B".toList, 1), ("c".toList, 1),
      ("d".toList, 1), ("e".toList, 0)] = true ∧
    MAX_PARAMS < [("a".toList, (1 : Nat)), ("B".toList, 1), ("c".toList, 1),
      ("d".toList, 1), ("e".toList, 0)].length ∧
    (∀ i, i < MAX_PARAMS →
      (([("a".toList, (1 : Nat)), ("B".toList, 1), ("c".toList, 1),
        ("d".toList, 1), ("e".toList, 0)].getD i ([], 0)).1).length ≤
        MAX_PARAM_LENGTH) ∧
    ((parse (renderLine 0 [("a".toList, 1), ("B".toList, 1),
        ("c".toList, 1), ("d".toList, 1), ("e".toList, 0)] "z".toList)
        (fun _ _ => nullChar)).1.len = (MAX_PARAMS : Int) ∧
      (parse (renderLine 0 [("a".toList, 1), ("B".toList, 1),
        ("c".toList, 1), ("d".toList, 1), ("e".toList, 0)] "z".toList)
        (fun _ _ => nullChar)).2 = "z".toList) := by
  refine ⟨by decide, by decide, by decide, ?_⟩
  have h := c3_truncates_to_max_params 0
    [("a".toList, 1), ("B".toList, 1), ("c".toList, 1), ("d".toList, 1),
      ("e".toList, 0)] "z".toList (fun _ _ => nullChar)
    (by decide) (by decide) (by decide)
  exact ⟨h.1, h.2.2.1⟩

/-- C10: only the space character delimits tokens.  Any token made of
characters other than space and newline - tabs included - is stored
verbatim in its row (lowercased character-by-character only in row 0),
with the count equal to the number of tokens, capped at MAX_PARAMS. -/
theorem c10_only_space_delimits (lead : Nat)
    (ps : List (List Char × Nat)) (S : List Char) (buf : Buf)
    (hg : goodPairsB ps = true)
    (hlen : ∀ i, i < min ps.length MAX_PARAMS →
      ((ps.getD i ([], 0)).1).length ≤ MAX_PARAM_LENGTH) :
    (parse (renderLine lead ps S) buf).1.len =
      ((min ps.length MAX_PARAMS : Nat) : Int) ∧
    (parse (renderLine lead ps S) buf).1.err = none ∧
    (∀ i, i < min ps.length MAX_PARAMS →
      (∀ j, j < ((ps.getD i ([], 0)).1).length →
        (parse (renderLine lead ps S) buf).1.buf i j =
          (if i = 0 then ctolower (((ps.getD i ([], 0)).1).getD j ' ')
           else ((ps.getD i ([], 0)).1).getD j ' ')) ∧
      (parse (renderLine lead ps S) buf).1.buf i
        ((ps.getD i ([], 0)).1).length = nullChar) := by
  have hp1 : (parse (renderLine lead ps S) buf).1 =
      refRun (ps.map Prod.fst) 0 (clearBuf buf) 0 [] := by
    rw [parse_render lead ps S buf hg]
  rw [hp1]
  have hmin : min ((ps.map Prod.fst).length) (MAX_PARAMS - 0) =
      min ps.length MAX_PARAMS := by
    rw [List.length_map, Nat.sub_zero]
  have h := refRun_content (ps.map Prod.fst) 0 (clearBuf buf) 0 []
    (by decide)
    (fun i hi => by
      rw [hmin] at hi
      rw [getD_map_fst]
      exact hlen i hi)
  obtain ⟨h1, h2, _, h4⟩ := h
  rw [hmin] at h1 h4
  refine ⟨by rw [h1]; simp, h2, ?_⟩
  intro i hi
  obtain ⟨hc1, hc2⟩ := h4 i hi
  rw [getD_map_fst] at hc1 hc2
  constructor
  · intro j hj
    have := hc1 j hj
    simpa using this
  · simpa using hc2

/-- Witness for C10: a second token holding a tab between letters is
stored verbatim - the tab does not split it - and the first token is
lowercased. -/
theorem c10_only_space_delimits_witness :
    goodPairsB [("Run".toList, 1), (['p', '\t', 'q'], 0)] = true ∧
    (∀ i, i < min [("Run".toList, (1 : Nat)),
        (['p', '\t', 'q'], 0)].length MAX_PARAMS →
      (([("Run".toList, (1 : Nat)), (['p', '\t', 'q'], 0)].getD i
        ([], 0)).1).length ≤ MAX_PARAM_LENGTH) ∧
    ((parse (renderLine 0 [("Run".toList, 1), (['p', '\t', 'q'], 0)] [])
        (fun _ _ => nullChar)).1.len = ((min [("Run".toList, (1 : Nat)),
          (['p', '\t', 'q'], 0)].length MAX_PARAMS : Nat) : Int) ∧
      ((parse (renderLine 0 [("Run".toList, 1), (['p', '\t', 'q'], 0)] [])
        (fun _ _ => nullChar)).1.buf 1 1 =
          (if (1 : Nat) = 0 then
            ctolower ((['p', '\t', 'q'] : List Char).getD 1 ' ')
           else (['p', '\t', 'q'] : List Char).getD 1 ' '))) := by
  refine ⟨by decide, by decide, ?_, ?_⟩
  · exact (c10_only_space_delimits 0
      [("Run".toList, 1), (['p', '\t', 'q'], 0)] []
      (fun _ _ => nullChar) (by decide) (by decide)).1
  · exact ((c10_only_space_delimits 0
      [("Run".toList, 1), (['p', '\t', 'q'], 0)] []
      (fun _ _ => nullChar) (by decide) (by decide)).2.2 1 (by decide)).1
      1 (by decide)
